import Mathlib

/-!
Verification development for the `ideacode` terminal agent.

Shallow embedding of the turn-orchestration core:
* `context.ts` — token estimation, summarizing compression, budget enforcement;
* `api.ts` (streaming variant) — the streaming response decoder and its
  tool-call argument accumulator;
* `repl.tsx` — the tool-call scheduler and the turn loop;
* `tools/index.ts` — the `runTool` dispatch boundary.

JavaScript idioms are modelled explicitly: truthiness checks on strings
(`!s` is true for the empty string), `Array.prototype.slice` with negative
and zero indices, `Math.round`, and `JSON.parse` / `JSON.stringify` via an
executable JSON model. Machine details that no claim depends on (UTF-16
lengths vs. codepoint lengths, floating-point numerals inside JSON) are
noted where they are abstracted.
-/

namespace Ideacode

/-- Model of a JSON value, the image of JS `JSON.parse` and the payload of
`unknown`-typed message content.  Numerals are modelled as integers; none of
the verified claims involves fractional numbers. -/
inductive Json where
  | null
  | bool (b : Bool)
  | num (n : Int)
  | str (s : String)
  | arr (items : List Json)
  | obj (fields : List (String × Json))

/-- Hex digit for an escape sequence. -/
def hexDigit (n : Nat) : Char :=
  if n < 10 then Char.ofNat (48 + n) else Char.ofNat (87 + n)

/-- Escape one character the way `JSON.stringify` does inside a string
literal: `"` and `\` get a backslash, the common control characters get
two-character escapes, other control characters get `\u00XX`. -/
def encodeJsonChar (c : Char) : List Char :=
  if c = '"' then ['\\', '"']
  else if c = '\\' then ['\\', '\\']
  else if c = '\n' then ['\\', 'n']
  else if c = '\t' then ['\\', 't']
  else if c = '\r' then ['\\', 'r']
  else if c = Char.ofNat 8 then ['\\', 'b']
  else if c = Char.ofNat 12 then ['\\', 'f']
  else if c.toNat < 32 then
    ['\\', 'u', '0', '0', hexDigit (c.toNat / 16), hexDigit (c.toNat % 16)]
  else [c]

/-- `JSON.stringify` of a string value (surrounding quotes included). -/
def encodeJsonString (s : String) : String :=
  "\"" ++ String.mk (s.data.flatMap encodeJsonChar) ++ "\""

/-- Model of `JSON.stringify` (compact form, no whitespace), as used by
`estimateTokens` and `messageContentToText` on non-string content. -/
def Json.stringify : Json → String
  | .null => "null"
  | .bool b => if b then "true" else "false"
  | .num n => toString n
  | .str s => encodeJsonString s
  | .arr items =>
      "[" ++ String.intercalate "," (items.attach.map (fun x => Json.stringify x.1)) ++ "]"
  | .obj fields =>
      "\x7b" ++ String.intercalate ","
        (fields.attach.map (fun f => encodeJsonString f.1.1 ++ ":" ++ Json.stringify f.1.2)) ++ "\x7d"
termination_by j => sizeOf j
decreasing_by
  · have hx := List.sizeOf_lt_of_mem x.2
    simp only [Json.arr.sizeOf_spec]
    omega
  · have hf := List.sizeOf_lt_of_mem f.2
    have h2 : sizeOf f.1.2 < sizeOf f.1 := by
      obtain ⟨a, b⟩ := f.1
      simp only [Prod.mk.sizeOf_spec]
      omega
    simp only [Json.obj.sizeOf_spec]
    omega

/-- JSON whitespace (as skipped by `JSON.parse`). -/
def isJsonWs (c : Char) : Bool :=
  c = ' ' || c = '\t' || c = '\n' || c = '\r'

/-- Skip leading JSON whitespace. -/
def skipWs : List Char → List Char
  | [] => []
  | c :: rest => if isJsonWs c then skipWs rest else c :: rest

/-- Value of a hex digit character, if it is one. -/
def hexVal (c : Char) : Option Nat :=
  if '0' ≤ c ∧ c ≤ '9' then some (c.toNat - 48)
  else if 'a' ≤ c ∧ c ≤ 'f' then some (c.toNat - 87)
  else if 'A' ≤ c ∧ c ≤ 'F' then some (c.toNat - 55)
  else none

/-- Parse the body of a JSON string literal (after the opening quote),
handling the escape sequences `JSON.parse` accepts.  Returns the decoded
characters and the remaining input. -/
def parseStringBody : Nat → List Char → Option (List Char × List Char)
  | 0, _ => none
  | _, [] => none
  | fuel + 1, c :: rest =>
    if c = '"' then some ([], rest)
    else if c = '\\' then
      match rest with
      | [] => none
      | e :: rest2 =>
        let decoded : Option (Char × List Char) :=
          if e = '"' then some ('"', rest2)
          else if e = '\\' then some ('\\', rest2)
          else if e = '/' then some ('/', rest2)
          else if e = 'b' then some (Char.ofNat 8, rest2)
          else if e = 'f' then some (Char.ofNat 12, rest2)
          else if e = 'n' then some ('\n', rest2)
          else if e = 'r' then some ('\r', rest2)
          else if e = 't' then some ('\t', rest2)
          else if e = 'u' then
            match rest2 with
            | h1 :: h2 :: h3 :: h4 :: rest3 =>
              match hexVal h1, hexVal h2, hexVal h3, hexVal h4 with
              | some a, some b, some c2, some d =>
                some (Char.ofNat (((a * 16 + b) * 16 + c2) * 16 + d), rest3)
              | _, _, _, _ => none
            | _ => none
          else none
        match decoded with
        | some (ch, rest') =>
          match parseStringBody fuel rest' with
          | some (cs, rem) => some (ch :: cs, rem)
          | none => none
        | none => none
    else
      match parseStringBody fuel rest with
      | some (cs, rem) => some (c :: cs, rem)
      | none => none

/-- Parse a run of decimal digits. -/
def parseDigits : Nat → List Char → (List Char × List Char)
  | 0, l => ([], l)
  | _, [] => ([], [])
  | fuel + 1, c :: rest =>
    if '0' ≤ c ∧ c ≤ '9' then
      let (ds, rem) := parseDigits fuel rest
      (c :: ds, rem)
    else ([], c :: rest)

/-- Digits to a natural number. -/
def digitsToNat (ds : List Char) : Nat :=
  ds.foldl (fun acc c => acc * 10 + (c.toNat - 48)) 0

mutual

/-- Fuel-driven model of `JSON.parse`: parse one JSON value, returning it and
the remaining input, or `none` when the input is not (yet) a complete value.
Only integer numerals are supported; the claims involve no fractional
numbers. -/
def parseValue : Nat → List Char → Option (Json × List Char)
  | 0, _ => none
  | fuel + 1, input =>
    match skipWs input with
    | [] => none
    | c :: rest =>
      if c = '{' then
        match skipWs rest with
        | '}' :: rest2 => some (.obj [], rest2)
        | rest2 => match parseFields fuel rest2 with
          | some (fs, rem) => some (.obj fs, rem)
          | none => none
      else if c = '[' then
        match skipWs rest with
        | ']' :: rest2 => some (.arr [], rest2)
        | rest2 => match parseItems fuel rest2 with
          | some (items, rem) => some (.arr items, rem)
          | none => none
      else if c = '"' then
        match parseStringBody fuel rest with
        | some (cs, rem) => some (.str (String.mk cs), rem)
        | none => none
      else if c = 't' then
        match rest with
        | 'r' :: 'u' :: 'e' :: rem => some (.bool true, rem)
        | _ => none
      else if c = 'f' then
        match rest with
        | 'a' :: 'l' :: 's' :: 'e' :: rem => some (.bool false, rem)
        | _ => none
      else if c = 'n' then
        match rest with
        | 'u' :: 'l' :: 'l' :: rem => some (.null, rem)
        | _ => none
      else if c = '-' then
        match parseDigits fuel rest with
        | ([], _) => none
        | (ds, rem) => some (.num (-(digitsToNat ds : Int)), rem)
      else if '0' ≤ c ∧ c ≤ '9' then
        match parseDigits fuel (c :: rest) with
        | ([], _) => none
        | (ds, rem) => some (.num (digitsToNat ds : Int), rem)
      else none

/-- Parse the fields of a JSON object after its opening brace (first field
expected next). -/
def parseFields : Nat → List Char → Option (List (String × Json) × List Char)
  | 0, _ => none
  | fuel + 1, input =>
    match skipWs input with
    | '"' :: rest =>
      match parseStringBody fuel rest with
      | some (key, rest2) =>
        match skipWs rest2 with
        | ':' :: rest3 =>
          match parseValue fuel rest3 with
          | some (v, rest4) =>
            match skipWs rest4 with
            | ',' :: rest5 =>
              match parseFields fuel rest5 with
              | some (fs, rem) => some ((String.mk key, v) :: fs, rem)
              | none => none
            | '}' :: rest5 => some ([(String.mk key, v)], rest5)
            | _ => none
          | none => none
        | _ => none
      | none => none
    | _ => none

/-- Parse the items of a JSON array after its opening bracket (first item
expected next). -/
def parseItems : Nat → List Char → Option (List Json × List Char)
  | 0, _ => none
  | fuel + 1, input =>
    match parseValue fuel input with
    | some (v, rest) =>
      match skipWs rest with
      | ',' :: rest2 =>
        match parseItems fuel rest2 with
        | some (items, rem) => some (v :: items, rem)
        | none => none
      | ']' :: rest2 => some ([v], rest2)
      | _ => none
    | none => none

end

/-- Model of `JSON.parse(s)`: succeeds only when the whole input is one JSON
value followed by nothing but whitespace. -/
def parseJson (s : String) : Option Json :=
  match parseValue (s.length + 1) s.data with
  | some (v, rem) => if skipWs rem = [] then some v else none
  | none => none

/-- JS whitespace as recognised by `String.prototype.trim` (the characters
relevant to this code base). -/
def isJsWs (c : Char) : Bool :=
  c = ' ' || c = '\t' || c = '\n' || c = '\r' || c = Char.ofNat 11 || c = Char.ofNat 12

/-- Model of JS `String.prototype.trim`. -/
def jsTrim (s : String) : String :=
  String.mk (((s.data.dropWhile isJsWs).reverse.dropWhile isJsWs).reverse)

/-- Model of JS `String.prototype.toLowerCase` (ASCII range; the tool names
this code lowercases are ASCII). -/
def jsToLower (s : String) : String :=
  String.mk (s.data.map Char.toLower)

/-- Kernel-friendly join with separator (the behaviour of JS
`Array.prototype.join`). -/
def joinSep (sep : String) : List String → String
  | [] => ""
  | [x] => x
  | x :: y :: rest => x ++ sep ++ joinSep sep (y :: rest)

/-! ## `src/context.ts` — token estimator, summarizing compressor, budget manager -/

/-- `Message` from `context.ts`: `{ role: string; content: unknown }`.
The `unknown` content is modelled as a JSON value; string content is the
`Json.str` case (distinguished in the source by `typeof`). -/
structure Message where
  role : String
  content : Json

/-- Character count contributed by one message's content in
`estimateTokens`: the string's length for string content, otherwise the
length of `JSON.stringify(content)`. -/
def contentChars : Json → Nat
  | .str s => s.length
  | j => (Json.stringify j).length

/-- Characters contributed by the optional system prompt
(`if (systemPrompt) chars += systemPrompt.length` — the empty string is
falsy in JS but would contribute 0 anyway). -/
def sysPromptChars : Option String → Nat
  | some s => s.length
  | none => 0

/-- `Math.round(chars / 4)` for a nonnegative integer `chars`.  `chars / 4`
is exactly representable as a double and JS rounds halves up, so this equals
`(chars + 2) / 4` in integer division. -/
def mathRoundDiv4 (chars : Nat) : Nat := (chars + 2) / 4

/-- `estimateTokens(messages, systemPrompt?)` from `context.ts`. -/
def estimateTokens (messages : List Message) (systemPrompt : Option String) : Nat :=
  mathRoundDiv4
    ((messages.foldl (fun acc m => acc + contentChars m.content) 0) + sysPromptChars systemPrompt)

/-- `estimateTokensForString(str)` from `context.ts`. -/
def estimateTokensForString (s : String) : Nat := mathRoundDiv4 s.length

/-- `MAX_PINNED_FACTS` from `context.ts`. -/
def MAX_PINNED_FACTS : Nat := 28

/-- `MAX_PINNED_FACT_CHARS` from `context.ts`. -/
def MAX_PINNED_FACT_CHARS : Nat := 200

/-- First field of a JS object by key (field access `obj.key`). -/
def lookupField (fields : List (String × Json)) (key : String) : Option Json :=
  match fields.find? (fun f => f.1 = key) with
  | some f => some f.2
  | none => none

/-- Parts contributed by one array item in `messageContentToText`: a string
`content` field is pushed, and a `tool_use`-typed item with a string `name`
additionally pushes `tool_use <name> <JSON of input ?? {}>`. -/
def itemParts (item : Json) : List String :=
  match item with
  | .obj fields =>
    let contentPart : List String :=
      match lookupField fields "content" with
      | some (.str s) => [s]
      | _ => []
    let toolPart : List String :=
      match lookupField fields "type", lookupField fields "name" with
      | some (.str "tool_use"), some (.str nm) =>
        let input : Json :=
          match lookupField fields "input" with
          | some .null => .obj []
          | some v => v
          | none => .obj []
        ["tool_use " ++ nm ++ " " ++ Json.stringify input]
      | _, _ => []
    contentPart ++ toolPart
  | _ => []

/-- `messageContentToText(content)` from `context.ts`. -/
def messageContentToText : Json → String
  | .str s => s
  | .arr items => joinSep "\n" (items.flatMap itemParts)
  | j => Json.stringify j

/-- Split a character list at newlines (JS `split("\n")`). -/
def splitNlChars : List Char → List (List Char)
  | [] => [[]]
  | c :: rest =>
    match splitNlChars rest with
    | [] => [[]]
    | l :: ls => if c = '\n' then [] :: l :: ls else (c :: l) :: ls

/-- JS `s.split("\n")`. -/
def splitNl (s : String) : List String :=
  (splitNlChars s.data).map String.mk

/-- Character class of the path alternative of `importantPattern`: letters,
digits, dot, underscore, slash, hyphen (the `i` flag makes the letter ranges
case-blind). -/
def isPathChar (c : Char) : Bool :=
  c.isAlpha || c.isDigit || c = '.' || c = '_' || c = '/' || c = '-'

/-- Word characters (`\w`, and `[A-Z0-9_]` under the `i` flag). -/
def isWordChar (c : Char) : Bool :=
  c.isAlpha || c.isDigit || c = '_'

/-- Is there a word boundary between `prev` (the char before the scan point,
`none` at line start) and a word character at the scan point? -/
def atWordBoundary (prev : Option Char) : Bool :=
  match prev with
  | none => true
  | some c => !isWordChar c

/-- Does `l` start with the (already lowercase) keyword `kw`, followed by a
word boundary? -/
def keywordHereLowered (kw : List Char) (l : List Char) : Bool :=
  match kw, l with
  | [], [] => true
  | [], c :: _ => !isWordChar c
  | _ :: _, [] => false
  | k :: ks, c :: cs => k = Char.toLower c && keywordHereLowered ks cs

/-- The keyword alternative of `importantPattern`:
`\b(error|failed|must|never|always|todo|fixme|constraint)\b`. -/
def importantKeywords : List (List Char) :=
  ["error", "failed", "must", "never", "always", "todo", "fixme", "constraint"].map String.data

/-- `https?:\/\/\S+` at the scan point (case-insensitive). -/
def httpHere (l : List Char) : Bool :=
  match l.map Char.toLower with
  | 'h' :: 't' :: 't' :: 'p' :: ':' :: '/' :: '/' :: c :: _ => !isJsWs c
  | 'h' :: 't' :: 't' :: 'p' :: 's' :: ':' :: '/' :: '/' :: c :: _ => !isJsWs c
  | _ => false

/-- One alternative of `importantPattern` matching at the scan point.
With the `i` flag, `\b[A-Z][A-Z0-9_]{2,}\b` matches any word of at least
three word characters starting with a letter (the greedy run always ends at
a word boundary). -/
def importantHere (prev : Option Char) (l : List Char) : Bool :=
  (match l with
   | '/' :: a :: b :: _ => isPathChar a && isPathChar b
   | _ => false)
  || httpHere l
  || (atWordBoundary prev &&
      (match l with
       | a :: b :: c :: _ => a.isAlpha && isWordChar b && isWordChar c
       | _ => false))
  || (atWordBoundary prev && importantKeywords.any (fun kw => keywordHereLowered kw l))

/-- Scan for a match of `importantPattern` anywhere in the line
(`RegExp.prototype.test`). -/
def importantScan (prev : Option Char) : List Char → Bool
  | [] => false
  | c :: rest => importantHere prev (c :: rest) || importantScan (some c) rest

/-- Model of `importantPattern.test(line)` from `extractPinnedFacts`. -/
def importantLine (s : String) : Bool :=
  importantScan none s.data

/-- JS `line.replace(/\s+/g, " ")`: collapse every whitespace run to a
single space. -/
def collapseWs : List Char → List Char
  | [] => []
  | [c] => if isJsWs c then [' '] else [c]
  | c :: d :: rest =>
    if isJsWs c then
      if isJsWs d then collapseWs (d :: rest) else ' ' :: collapseWs (d :: rest)
    else c :: collapseWs (d :: rest)

/-- The fact-collection loop of `extractPinnedFacts`: keep lines matching the
pattern, normalise whitespace, cap at `MAX_PINNED_FACT_CHARS` characters,
deduplicate, stop at `MAX_PINNED_FACTS` facts.  `acc` holds the facts
collected so far in reverse order. -/
def pinnedFactsLoop : List String → List String → List String
  | [], acc => acc.reverse
  | line :: rest, acc =>
    if !importantLine line then pinnedFactsLoop rest acc
    else
      let cleaned := String.mk ((collapseWs line.data).take MAX_PINNED_FACT_CHARS)
      if cleaned = "" || acc.contains cleaned then pinnedFactsLoop rest acc
      else
        let acc' := cleaned :: acc
        if MAX_PINNED_FACTS ≤ acc'.length then acc'.reverse else pinnedFactsLoop rest acc'

/-- `extractPinnedFacts(messages)` from `context.ts`. -/
def extractPinnedFacts (messages : List Message) : List String :=
  let allLines :=
    ((messages.flatMap (fun m => splitNl (messageContentToText m.content))).map jsTrim).filter
      (fun l => l ≠ "")
  pinnedFactsLoop allLines []

/-- `buildSummaryEnvelope(summary, pinnedFacts)` from `context.ts`. -/
def buildSummaryEnvelope (summary : String) (pinnedFacts : List String) : String :=
  let factBlock :=
    if pinnedFacts.length > 0 then
      "Pinned facts (verbatim, highest priority):\n" ++
        joinSep "\n" (pinnedFacts.map (fun f => "- " ++ f)) ++ "\n\n"
    else ""
  jsTrim (factBlock ++ "Conversation summary:\n" ++ summary)

/-- JS `xs.slice(-k)`.  For `k = 0` this is `xs.slice(0)`, i.e. the whole
array (`-0 === 0` in JS); for `k > 0` the start index is clamped at 0. -/
def jsSliceNeg {α : Type} (xs : List α) (k : Nat) : List α :=
  if k = 0 then xs else xs.drop (xs.length - k)

/-- `compressState(apiKey, state, systemPrompt, model, { keepLast })` from
`context.ts`.  The non-streaming summarization round-trip
(`callSummarize(apiKey, toSummarize, model)` in `api.ts`) is modelled by the
`summarize` parameter, which either returns the summary text or raises; the
`systemPrompt` parameter is received but unused, as in the source. -/
def compressState {ε : Type} (summarize : List Message → Except ε String)
    (state : List Message) (_systemPrompt : String) (keepLast : Nat) :
    Except ε (List Message) :=
  if state.length ≤ keepLast then .ok state
  else
    let toSummarize := state.take (state.length - keepLast)
    let recent := jsSliceNeg state keepLast
    match summarize toSummarize with
    | .error e => .error e
    | .ok summary =>
      let pinnedFacts := extractPinnedFacts toSummarize
      .ok ({ role := "assistant",
             content := .str (buildSummaryEnvelope summary pinnedFacts) } :: recent)

/-- The hard-fallback trimming loop of `ensureUnderBudget`:
`while (working.length > 1 && estimateTokens(working, systemPrompt) > maxTokens)
working = working.slice(1)`. -/
def trimLoop (systemPrompt : Option String) (maxTokens : Nat) : List Message → List Message
  | [] => []
  | [m] => [m]
  | m :: m₂ :: rest =>
    if estimateTokens (m :: m₂ :: rest) systemPrompt > maxTokens then
      trimLoop systemPrompt maxTokens (m₂ :: rest)
    else m :: m₂ :: rest

/-- `ensureUnderBudget(apiKey, state, systemPrompt, model, { maxTokens, keepLast })`
from `context.ts`.  A failure raised by the summarization call inside
`compressState` propagates (there is no try/catch around the `await`). -/
def ensureUnderBudget {ε : Type} (summarize : List Message → Except ε String)
    (state : List Message) (systemPrompt : String) (maxTokens keepLast : Nat) :
    Except ε (List Message) :=
  if estimateTokens state (some systemPrompt) ≤ maxTokens then .ok state
  else
    match
      (if state.length > keepLast then compressState summarize state systemPrompt keepLast
       else .ok state) with
    | .error e => .error e
    | .ok working => .ok (trimLoop (some systemPrompt) maxTokens working)

/-! ## `src/api.ts` (streaming variant) — the streaming response decoder

`callApiStream` drives a server-sent-event stream.  The network loop is
modelled as a fold over the already-parsed chunk sequence (`parseStreamChunk`
output): each event is either the `[DONE]` sentinel or a delta carrying
optional text content, optional tool-call fragments and an optional finish
reason.  The display callbacks (`onTextDelta`, `onToolCall`) do not affect
the returned block list and are omitted. -/

/-- `ContentBlock` from `api.ts`. -/
structure ContentBlock where
  type : String
  text : Option String := none
  name : Option String := none
  input : Option Json := none
  id : Option String := none

/-- `ToolAccum` from `api.ts`: `{ id?: string; name?: string; arguments: string }`. -/
structure ToolAccum where
  id : Option String := none
  name : Option String := none
  arguments : String := ""

/-- One entry of a `tool_calls` delta array. -/
structure ToolDelta where
  index : Option Nat := none
  id : Option String := none
  name : Option String := none
  arguments : Option String := none

/-- One parsed stream event: the `[DONE]` sentinel, or a chunk with
`choices[0].delta.content`, `choices[0].delta.tool_calls` and
`choices[0].finish_reason`. -/
inductive StreamEvent where
  | done
  | chunk (content : Option String) (tool_calls : Option (List ToolDelta))
      (finish_reason : Option String)

/-- Decoder state: the tool-call accumulator array (sparse JS array modelled
with `none` holes), the block list built so far, the running text
accumulator and the index of the text block once placed (`-1` in the source
is modelled as `none`). -/
structure DecState where
  toolAccum : List (Option ToolAccum) := []
  contentBlocks : List ContentBlock := []
  textAccum : String := ""
  textBlockIndex : Option Nat := none

/-- JS string truthiness (`!s` is true exactly for the empty string). -/
def strTruthy : Option String → Bool
  | some s => s ≠ ""
  | none => false

/-- `tryEmitToolCall(index)` from `callApiStream`: requires a truthy `id` and
`name`; parses the accumulated arguments (an all-whitespace buffer parses as
the empty object); on success appends a `tool_use` block and resets the slot
to `{ arguments: "" }`.  Returns the updated state and whether it emitted. -/
def tryEmitToolCall (st : DecState) (index : Nat) : DecState × Bool :=
  match st.toolAccum.get? index with
  | none => (st, false)
  | some none => (st, false)
  | some (some t) =>
    if strTruthy t.id ∧ strTruthy t.name then
      let argsOpt : Option Json :=
        if jsTrim t.arguments ≠ "" then parseJson t.arguments else some (.obj [])
      match argsOpt with
      | none => (st, false)
      | some args =>
        let block : ContentBlock :=
          { type := "tool_use", id := t.id, name := t.name, input := some args }
        ({ st with
            contentBlocks := st.contentBlocks ++ [block],
            toolAccum := st.toolAccum.set index (some { arguments := "" }) }, true)
    else (st, false)

/-- Run `tryEmitToolCall` on every index of the accumulator array
(`for (let i = 0; i < toolAccum.length; i++) await tryEmitToolCall(i)`). -/
def emitAll (st : DecState) : DecState :=
  (List.range st.toolAccum.length).foldl (fun s i => (tryEmitToolCall s i).1) st

/-- `flushRemainingToolCalls()` from `callApiStream`: re-attempt any slot
that still has a truthy `id` and `name`. -/
def flushRemainingToolCalls (st : DecState) : DecState :=
  (List.range st.toolAccum.length).foldl
    (fun s i =>
      match s.toolAccum.get? i with
      | some (some t) =>
        if strTruthy t.id ∧ strTruthy t.name then (tryEmitToolCall s i).1 else s
      | _ => s)
    st

/-- `finish()` from `callApiStream`: write the accumulated text into its
block, or prepend a fresh text block when text arrived but no block was
placed. -/
def decodeFinish (st : DecState) : List ContentBlock :=
  match st.textBlockIndex with
  | some i =>
    match st.contentBlocks.get? i with
    | some b => st.contentBlocks.set i { b with text := some st.textAccum }
    | none => st.contentBlocks
  | none =>
    if jsTrim st.textAccum ≠ "" then
      { type := "text", text := some st.textAccum } :: st.contentBlocks
    else st.contentBlocks

/-- Text-delta handling: extend the running text and place or update the
text block. -/
def applyTextDelta (st : DecState) (s : String) : DecState :=
  let textAccum := st.textAccum ++ s
  match st.textBlockIndex with
  | none =>
    { st with
        textAccum,
        contentBlocks := st.contentBlocks ++ [{ type := "text", text := some textAccum }],
        textBlockIndex := some st.contentBlocks.length }
  | some i =>
    match st.contentBlocks.get? i with
    | some b => { st with textAccum, contentBlocks := st.contentBlocks.set i { b with text := some textAccum } }
    | none => { st with textAccum }

/-- Grow the accumulator array so that slot `i` exists, creating
`{ arguments: "" }` there when the slot is absent or a hole
(`if (!toolAccum[i]) toolAccum[i] = { arguments: "" }`). -/
def ensureSlot (l : List (Option ToolAccum)) (i : Nat) : List (Option ToolAccum) :=
  let l := if l.length ≤ i then l ++ List.replicate (i + 1 - l.length) none else l
  match l.get? i with
  | some (some _) => l
  | _ => l.set i (some {})

/-- Apply one `tool_calls` fragment: `id`/`name` overwrite when truthy,
`arguments` is appended whenever it is a string. -/
def applyToolDelta (l : List (Option ToolAccum)) (d : ToolDelta) : List (Option ToolAccum) :=
  let i := d.index.getD 0
  let l := ensureSlot l i
  match l.get? i with
  | some (some t) =>
    let t := if strTruthy d.id then { t with id := d.id } else t
    let t := if strTruthy d.name then { t with name := d.name } else t
    let t :=
      match d.arguments with
      | some a => { t with arguments := t.arguments ++ a }
      | none => t
    l.set i (some t)
  | _ => l

/-- Process one parsed stream event.  Returns the new state, and the final
block list when this event terminated the stream (sentinel or a truthy
`finish_reason`). -/
def processEvent (st : DecState) : StreamEvent → DecState × Option (List ContentBlock)
  | .done =>
    let st := flushRemainingToolCalls st
    (st, some (decodeFinish st))
  | .chunk content tool_calls finish_reason =>
    let st := if strTruthy content then applyTextDelta st (content.getD "") else st
    let st :=
      match tool_calls with
      | some ds => emitAll { st with toolAccum := ds.foldl applyToolDelta st.toolAccum }
      | none => st
    if strTruthy finish_reason then
      let st := flushRemainingToolCalls st
      (st, some (decodeFinish st))
    else (st, none)

/-- Run the decoder over a parsed event list.  A stream that ends without a
terminator is flushed and finished, as after the reader's `done`. -/
def decodeLoop (st : DecState) : List StreamEvent → List ContentBlock
  | [] => decodeFinish (flushRemainingToolCalls st)
  | e :: rest =>
    match processEvent st e with
    | (_, some blocks) => blocks
    | (st', none) => decodeLoop st' rest

/-- `callApiStream`'s decoding result for a parsed event sequence. -/
def runDecoder (events : List StreamEvent) : List ContentBlock :=
  decodeLoop {} events

/-! ## `src/repl.tsx` — tool-call scheduler and turn loop

The tool-dispatch section of `processInput` iterates the response's content
blocks, accumulating consecutive parallel-safe calls into `parallelBatch`
and flushing the batch (awaiting `Promise.all`) before any other tool call
runs.  Execution is modelled as the ordered list of scheduling steps the
loop performs; each step completes before the next starts (every step ends
in an `await` in the source), and a `batch` step completes all its calls
within the step. -/

/-- `PARALLEL_SAFE_TOOLS` from `repl.tsx`. -/
def PARALLEL_SAFE_TOOLS : List String := ["read", "glob", "grep", "web_fetch", "web_search"]

/-- `MAX_TOOL_RESULT_CHARS` from `repl.tsx`. -/
def MAX_TOOL_RESULT_CHARS : Nat := 3500

/-- `TRUNCATE_NOTE` from `repl.tsx`. -/
def TRUNCATE_NOTE : String :=
  "\n\n(Output truncated to save context. Use read with offset/limit, grep with a specific pattern, or tail with fewer lines to get more.)"

/-- `truncateToolResult(content)` from `repl.tsx`. -/
def truncateToolResult (content : String) : String :=
  if content.length ≤ MAX_TOOL_RESULT_CHARS then content
  else String.mk (content.data.take MAX_TOOL_RESULT_CHARS) ++ TRUNCATE_NOTE

/-- `MAX_EMPTY_ASSISTANT_RETRIES` from `repl.tsx`. -/
def MAX_EMPTY_ASSISTANT_RETRIES : Nat := 3

/-- JS truthiness of a JSON value (`!v`): `null`, `false`, `0` and the empty
string are falsy; arrays and objects are always truthy. -/
def jsonTruthy : Json → Bool
  | .null => false
  | .bool b => b
  | .num n => n ≠ 0
  | .str s => s ≠ ""
  | .arr _ => true
  | .obj _ => true

/-- Truthiness of an optional JSON field. -/
def jsonTruthyOpt : Option Json → Bool
  | some j => jsonTruthy j
  | none => false

/-- The guard at the top of the dispatch loop:
`block.type !== "tool_use" || !block.name || !block.input` skips the block. -/
def isDispatchedToolUse (b : ContentBlock) : Bool :=
  b.type == "tool_use" && strTruthy b.name && jsonTruthyOpt b.input

/-- `PlannedToolCall` from `repl.tsx` (`argPreview`, used only for display,
is omitted). -/
structure PlannedToolCall where
  block : ContentBlock
  toolName : String
  toolArgs : Json

/-- Build the planned call for a dispatched block
(`block.name.trim().toLowerCase()`; `block.input` as the argument map). -/
def plannedOf (b : ContentBlock) : PlannedToolCall :=
  { block := b, toolName := jsToLower (jsTrim (b.name.getD "")), toolArgs := b.input.getD (.obj []) }

/-- One scheduling step of the dispatch loop: a batch launched concurrently
and awaited as a whole (`runParallelBatch`), or a single sequential call. -/
inductive SchedStep where
  | batch (calls : List PlannedToolCall)
  | seq (call : PlannedToolCall)

/-- The dispatch loop of `processInput`, with `acc` the pending
`parallelBatch`: parallel-safe calls accumulate; any other tool call first
flushes the pending batch (empty batches produce no step) and then runs
alone; a trailing batch is flushed after the loop. -/
def scheduleLoop (enableParallel : Bool) (acc : List PlannedToolCall) :
    List ContentBlock → List SchedStep
  | [] => if acc.isEmpty then [] else [.batch acc]
  | b :: rest =>
    if !isDispatchedToolUse b then scheduleLoop enableParallel acc rest
    else
      let p := plannedOf b
      if enableParallel && PARALLEL_SAFE_TOOLS.contains p.toolName then
        scheduleLoop enableParallel (acc ++ [p]) rest
      else
        (if acc.isEmpty then [] else [.batch acc]) ++ .seq p :: scheduleLoop enableParallel [] rest

/-- The ordered scheduling steps for one response's content blocks. -/
def schedule (enableParallel : Bool) (blocks : List ContentBlock) : List SchedStep :=
  scheduleLoop enableParallel [] blocks

/-- A `tool_result` entry as pushed by `renderToolOutcome`. -/
structure ToolResultBlock where
  tool_use_id : String
  content : String

/-- `renderToolOutcome`'s contribution to `toolResults`: one entry with the
truncated result, pushed only when the block has a truthy `id`. -/
def resultOfPlanned (runT : String → Json → String) (p : PlannedToolCall) :
    List ToolResultBlock :=
  if strTruthy p.block.id then
    [{ tool_use_id := p.block.id.getD "", content := truncateToolResult (runT p.toolName p.toolArgs) }]
  else []

/-- Results produced by one scheduling step, in the order they are pushed
(batch entries in request order after the whole batch settles). -/
def stepResults (runT : String → Json → String) : SchedStep → List ToolResultBlock
  | .batch ps => ps.flatMap (resultOfPlanned runT)
  | .seq p => resultOfPlanned runT p

/-- The `toolResults` list accumulated over the whole dispatch loop.
`runT name args` is the settled string result of one tool execution
(`runTool` never rejects, so every execution settles with a string). -/
def toolResultsOf (runT : String → Json → String) (enableParallel : Bool)
    (blocks : List ContentBlock) : List ToolResultBlock :=
  (schedule enableParallel blocks).flatMap (stepResults runT)

/-- Message content as it appears in the REPL's conversation state. -/
inductive RContent where
  | text (s : String)
  | blocks (bs : List ContentBlock)
  | results (rs : List ToolResultBlock)

/-- A conversation-state message of the turn loop. -/
structure RMessage where
  role : String
  content : RContent

/-- `hasMeaningfulAssistantOutput` from `processInput`. -/
def hasMeaningful (blocks : List ContentBlock) : Bool :=
  blocks.any (fun b =>
    b.type == "tool_use" ||
      (b.type == "text" &&
        (match b.text with
         | some s => jsTrim s ≠ ""
         | none => false)))

/-- The turn loop of `processInput`, as the list of conversation states at
each model round-trip.  `responses` supplies the content blocks of each
round-trip's (settled) model response, `retries` is
`emptyAssistantRetries`.  An empty response retries with the same state up
to the bound; a response whose dispatch produces no tool results settles the
turn. -/
def turnCallStates (runT : String → Json → String) (enableParallel : Bool) :
    List (List ContentBlock) → List RMessage → Nat → List (List RMessage)
  | [], _, _ => []
  | blocks :: rest, st, retries =>
    st ::
      (if !hasMeaningful blocks then
        if retries + 1 ≤ MAX_EMPTY_ASSISTANT_RETRIES then
          turnCallStates runT enableParallel rest st (retries + 1)
        else []
      else
        let results := toolResultsOf runT enableParallel blocks
        let st' := st ++ [{ role := "assistant", content := .blocks blocks }]
        if results.isEmpty then []
        else turnCallStates runT enableParallel rest
          (st' ++ [{ role := "user", content := .results results }]) 0)

/-- Is this a tool-results user message? -/
def isResultsMsg (m : RMessage) : Bool :=
  match m.content with
  | .results _ => true
  | _ => false

/-- A dispatched `tool_use` block that also carries a truthy `id` (and hence
produces a `tool_result`). -/
def producesResult (b : ContentBlock) : Bool :=
  isDispatchedToolUse b && strTruthy b.id

/-- The correspondence between an assistant message's blocks and the
following tool-results message: every result's `tool_use_id` is the `id` of
some `tool_use` block, and the result ids are exactly the ids of the
dispatched id-carrying `tool_use` blocks, in request order. -/
def resultsMatchB (blocks : List ContentBlock) (rs : List ToolResultBlock) : Bool :=
  rs.all (fun r => blocks.any (fun b => b.type == "tool_use" && b.id == some r.tool_use_id)) &&
    rs.map (·.tool_use_id) == (blocks.filter producesResult).map (fun b => b.id.getD "")

/-- A tool-results message is acceptable only immediately after an assistant
blocks message whose blocks it matches. -/
def checkPair (prev m : RMessage) : Bool :=
  match m.content with
  | .results rs =>
    match prev.content with
    | .blocks bs => prev.role == "assistant" && resultsMatchB bs rs
    | _ => false
  | _ => true

/-- Check every adjacent pair from a given predecessor. -/
def invFrom (prev : RMessage) : List RMessage → Bool
  | [] => true
  | m :: rest => checkPair prev m && invFrom m rest

/-- The conversation-state invariant: every tool-results message immediately
follows the assistant message it answers, and matches its blocks. -/
def InvB : List RMessage → Bool
  | [] => true
  | m :: rest => !isResultsMsg m && invFrom m rest

/-! ## `src/tools/index.ts` — the `runTool` dispatch boundary -/

/-- The names registered in `TOOLS`. -/
def TOOL_NAMES : List String :=
  ["read", "write", "edit", "glob", "grep", "bash", "web_fetch", "web_search"]

/-- Outcome of invoking one tool implementation: a resolved string, or a
raised exception (already rendered to the string the catch block would
interpolate). -/
inductive ToolOutcome where
  | ok (s : String)
  | thrown (message : String)

/-- `getTools()`: the registry, minus `web_search` when no Brave key is
configured. -/
def getToolNames (braveKey : Option String) : List String :=
  if strTruthy braveKey then TOOL_NAMES else TOOL_NAMES.filter (fun n => n ≠ "web_search")

/-- `normalizeToolName(name)` from `tools/index.ts`. -/
def normalizeToolName (name : String) : String := jsToLower (jsTrim name)

/-- The message returned for `web_search` without a configured key. -/
def BRAVE_KEY_ERROR : String :=
  "error: Brave Search API key not set. Use /brave or set BRAVE_API_KEY to enable web search."

/-- `runTool(name, args)` from `tools/index.ts`.  `braveKey` is the result
of `getBraveSearchApiKey()`; `impls` gives each registered implementation's
outcome on the given arguments. -/
def runTool (braveKey : Option String) (impls : String → Json → ToolOutcome)
    (name : String) (args : Json) : String :=
  let canonical := normalizeToolName name
  if canonical = "web_search" ∧ ¬ strTruthy braveKey = true then BRAVE_KEY_ERROR
  else if (getToolNames braveKey).contains canonical then
    match impls canonical args with
    | .ok s => s
    | .thrown m => "error: " ++ m
  else "error: Unknown tool: " ++ canonical

/-! ## Retry/backoff controller

Modelled from the spec: the rate-limit retrying wrapper around one model
round-trip is not present in `src/src/api.ts` (its `callApi` has no retry
logic), yet its call site in `repl.tsx` passes an `onRetry` progress
callback; the wrapper is reconstructed from §4.6 of the spec.  `responses`
gives the HTTP outcome of each attempt; the progress-callback invocations
are returned as an event trace. -/

/-- An HTTP outcome of one model round-trip attempt. -/
structure ApiResponse where
  status : Nat
  retryAfterMs : Option Nat
  content : List ContentBlock

/-- One invocation of the progress callback:
`(attempt, maxAttempts, waitMs, status)`. -/
structure RetryEvent where
  attempt : Nat
  maxAttempts : Nat
  waitMs : Nat
  status : Nat

/-- Modelled from the spec: the rate-limit response status. -/
def RATE_LIMIT_STATUS : Nat := 429

/-- Modelled from the spec: is this response status a rate limit? -/
def isRateLimited (status : Nat) : Bool := status == RATE_LIMIT_STATUS

/-- Modelled from the spec: the wait interval, "computed from response
hints (or an exponential default)". -/
def computeWaitMs (baseDelayMs : Nat) (hint : Option Nat) (attempt : Nat) : Nat :=
  match hint with
  | some w => w
  | none => baseDelayMs * 2 ^ (attempt - 1)

/-- Modelled from the spec: the retry loop from attempt number `attempt`
with `remaining` further attempts allowed after this one.  A non-rate-limit
response returns immediately; a rate-limited response with attempts left
invokes the progress callback with `(attempt, maxAttempts, waitMs, status)`,
waits, and retries; a rate-limited response on the last attempt surfaces the
status as the fatal error. -/
def retryFrom (responses : Nat → ApiResponse) (baseDelayMs maxAttempts : Nat) :
    Nat → Nat → Except Nat (List ContentBlock) × List RetryEvent
  | attempt, remaining =>
    let r := responses attempt
    if !isRateLimited r.status then (.ok r.content, [])
    else
      match remaining with
      | 0 => (.error r.status, [])
      | rem + 1 =>
        let w := computeWaitMs baseDelayMs r.retryAfterMs attempt
        let (res, evs) := retryFrom responses baseDelayMs maxAttempts (attempt + 1) rem
        (res, { attempt := attempt, maxAttempts := maxAttempts, waitMs := w,
                status := r.status } :: evs)

/-- Modelled from the spec: the retrying `callApi` wrapper — at most
`maxAttempts` round-trip attempts in total. -/
def callApiWithRetry (responses : Nat → ApiResponse) (baseDelayMs maxAttempts : Nat) :
    Except Nat (List ContentBlock) × List RetryEvent :=
  retryFrom responses baseDelayMs maxAttempts 1 (maxAttempts - 1)

/-! ## Spec-side definitions and statement helpers -/

/-- The spec's `totalSerializedChars`: the sum over the messages of the
character length of string content (or of the serialization of non-string
content), plus the system prompt length when supplied (spec §4.1). -/
def specTotalSerializedChars (messages : List Message) (systemPrompt : Option String) : Nat :=
  (messages.map (fun m => contentChars m.content)).sum + sysPromptChars systemPrompt

/-- Concatenation of a fragment list. -/
def strConcat : List String → String
  | [] => ""
  | s :: rest => s ++ strConcat rest

/-- A `tool_calls` delta for slot 0 carrying only an arguments fragment. -/
def argDeltaEvent (f : String) : StreamEvent :=
  .chunk none (some [{ index := some 0, arguments := some f }]) none

/-- A `tool_calls` delta for slot 0 carrying the call id, the tool name and
an arguments fragment. -/
def headDeltaEvent (tid tname f : String) : StreamEvent :=
  .chunk none (some [{ index := some 0, id := some tid, name := some tname,
                       arguments := some f }]) none

/-- A chunk whose `finish_reason` terminates the stream. -/
def finishEvent : StreamEvent :=
  .chunk none none (some "stop")

/-- Decoder state with a single slot holding `id`, `name` and an
accumulated arguments buffer. -/
def slotState (tid tname p : String) : DecState :=
  { toolAccum := [some { id := some tid, name := some tname, arguments := p }] }

/-- The `tool_use` block emitted for a slot with the given id, name and
parsed input. -/
def emittedBlock (tid tname : String) (j : Json) : ContentBlock :=
  { type := "tool_use", name := some tname, input := some j, id := some tid }

/-- What the decoder emits for a slot with truthy id and name whose final
accumulated arguments buffer is `s`: the empty object for an all-whitespace
buffer, the parsed object when the buffer parses, nothing (silent drop)
otherwise. -/
def emitOutcome (tid tname s : String) : List ContentBlock :=
  if jsTrim s = "" then [emittedBlock tid tname (.obj [])]
  else
    match parseJson s with
    | some j => [emittedBlock tid tname j]
    | none => []

/-- Decoder state after an emission: the slot is reset to `{ arguments: "" }`
(id and name gone) and the emitted blocks are recorded. -/
def deadSlotState (a : String) (blocks : List ContentBlock) : DecState :=
  { toolAccum := [some { arguments := a }], contentBlocks := blocks }

/-- The planned calls a scheduling step executes. -/
def stepCalls : SchedStep → List PlannedToolCall
  | .batch ps => ps
  | .seq p => [p]

/-- Is the planned call's tool on the parallel-safe allow-list? -/
def isSafeCall (p : PlannedToolCall) : Bool :=
  PARALLEL_SAFE_TOOLS.contains p.toolName

/-- The progress-callback tuple the retry loop reports before the wait that
follows attempt `k`. -/
def retryEventAt (responses : Nat → ApiResponse) (baseDelayMs maxAttempts k : Nat) :
    RetryEvent :=
  { attempt := k, maxAttempts := maxAttempts,
    waitMs := computeWaitMs baseDelayMs (responses k).retryAfterMs k,
    status := (responses k).status }

/-- Concrete attempt outcomes for exercising the retry controller: the first
two attempts are rate-limited, the third succeeds. -/
def sampleRetryResponses : Nat → ApiResponse :=
  fun k => if k ≤ 2 then { status := 429, retryAfterMs := some 100, content := [] }
           else { status := 200, retryAfterMs := none,
                  content := [{ type := "text", text := some "hi" }] }

/-- A message with plain string content. -/
def strMsg (role s : String) : Message := { role := role, content := .str s }

/-- Scenario E: three consecutive allow-listed `ToolUse` blocks followed by
one `write` call, with request-ordered call ids. -/
def scenarioE : List ContentBlock :=
  [ { type := "tool_use", name := some "read", input := some (.obj []), id := some "c1" },
    { type := "tool_use", name := some "glob", input := some (.obj []), id := some "c2" },
    { type := "tool_use", name := some "grep", input := some (.obj []), id := some "c3" },
    { type := "tool_use", name := some "write", input := some (.obj []), id := some "c4" } ]

/-- A well-formed `read` tool-use block with id `a`. -/
def c8BlockA : ContentBlock :=
  { type := "tool_use", name := some "read", input := some (.obj []), id := some "a" }

/-- A `write` tool-use block carrying no id: it is dispatched but produces
no `ToolResult` (`if (planned.block.id)` fails). -/
def c8BlockB : ContentBlock :=
  { type := "tool_use", name := some "write", input := some (.obj []) }

/-- A pure-text closing response. -/
def c8TextDone : ContentBlock := { type := "text", text := some "done" }

/-- The initial conversation state of the C8 runs. -/
def c8Start : List RMessage := [{ role := "user", content := .text "hi" }]

/-- The history of the `compressState` evaluation at `keepLast = 0`. -/
def c6Input : List Message := [strMsg "user" "x"]

/-- What `compressState` returns on `c6Input` with `keepLast = 0`: the
synthetic summary message followed by the whole input again. -/
def c6Result : List Message :=
  [{ role := "assistant", content := .str "Conversation summary:\nS" }, strMsg "user" "x"]

end Ideacode

namespace Ideacode

/-! # Theorems -/

/-! ### String and list helper lemmas -/

/-- Appending the empty string on the left is the identity. -/
theorem str_empty_append (s : String) : "" ++ s = s := by
  cases s; rfl

/-- Appending the empty string on the right is the identity. -/
theorem str_append_empty (s : String) : s ++ "" = s := by
  cases s with
  | mk data => exact congrArg String.mk (List.append_nil data)

/-- String append is associative. -/
theorem str_append_assoc (a b c : String) : a ++ b ++ c = a ++ (b ++ c) := by
  cases a with
  | mk da =>
    cases b with
    | mk db =>
      cases c with
      | mk dc => exact congrArg String.mk (List.append_assoc da db dc)

/-- The character fold of `estimateTokens` computes the mapped sum. -/
theorem foldl_contentChars (messages : List Message) (a : Nat) :
    messages.foldl (fun acc m => acc + contentChars m.content) a
      = a + (messages.map (fun m => contentChars m.content)).sum := by
  induction messages generalizing a with
  | nil => simp
  | cons m rest ih => simp [List.foldl, ih, Nat.add_assoc]

/-! ### Claim C7 — the token estimator's formula -/

/-- Claim C7 counterexample: on a single one-character message
`estimateTokens` returns `Math.round(1/4) = 0`, not `ceil(1/4) = 1`, so the
estimator is not the claimed `ceil(totalSerializedChars / 4)`. -/
theorem estimateTokens_claimC7_cx :
    estimateTokens [strMsg "user" "a"] none
      ≠ (specTotalSerializedChars [strMsg "user" "a"] none + 3) / 4 := by
  decide

/-- Claim C7 (amended): for every message list and optional system prompt,
`estimate(messages, systemPrompt)` equals `totalSerializedChars / 4` rounded
half-up (`Math.round`, i.e. `floor((totalSerializedChars + 2) / 4)`), where
`totalSerializedChars` sums the character length of string content (or of
the JSON serialization of non-string content) plus the system prompt's
length when supplied. -/
theorem estimateTokens_round_half_up (messages : List Message) (systemPrompt : Option String) :
    estimateTokens messages systemPrompt
      = (specTotalSerializedChars messages systemPrompt + 2) / 4 := by
  unfold estimateTokens specTotalSerializedChars mathRoundDiv4
  rw [foldl_contentChars]
  simp

end Ideacode

namespace Ideacode

/-! ### Claim C1 — summarizer failure and `ensureUnderBudget` -/

/-- Claim C1 counterexample: with an over-budget two-message history,
`keepLast = 1` and a summarization call that raises, `ensureUnderBudget`
returns the summarizer's error instead of a trimmed history — the failure
propagates to the caller. -/
theorem ensureUnderBudget_claimC1_cx :
    ensureUnderBudget (fun _ => Except.error "summarizer down")
        [strMsg "user" "aaaaaaaa", strMsg "user" "bbbbbbbb"] "" 0 1
      = Except.error "summarizer down" := rfl

/-- Claim C1 (amended): when the history is over budget, longer than
`keepLast`, and the summarization call inside `compressState` fails, the
error propagates out of `ensureUnderBudget` to its caller (there is no
internal fallback to pure trimming on that path; the trimming loop runs only
after a successful compression or when the history is short). -/
theorem ensureUnderBudget_error_propagation {ε : Type}
    (summarize : List Message → Except ε String) (state : List Message)
    (systemPrompt : String) (maxTokens keepLast : Nat) (e : ε)
    (hfail : summarize (state.take (state.length - keepLast)) = .error e)
    (hover : maxTokens < estimateTokens state (some systemPrompt))
    (hlen : keepLast < state.length) :
    ensureUnderBudget summarize state systemPrompt maxTokens keepLast = .error e := by
  unfold ensureUnderBudget compressState
  rw [if_neg (by omega), if_pos hlen, if_neg (by omega)]
  simp only [hfail]

/-- Witness for the amended C1 theorem at a concrete input. -/
theorem ensureUnderBudget_error_propagation_witness :
    (fun (_ : List Message) => (Except.error "boom" : Except String String))
        ([strMsg "user" "aaaaaaaa", strMsg "user" "bbbbbbbb"].take 1) = .error "boom"
      ∧ 0 < estimateTokens [strMsg "user" "aaaaaaaa", strMsg "user" "bbbbbbbb"] (some "")
      ∧ 1 < ([strMsg "user" "aaaaaaaa", strMsg "user" "bbbbbbbb"] : List Message).length
      ∧ ensureUnderBudget (fun _ => Except.error "boom")
          [strMsg "user" "aaaaaaaa", strMsg "user" "bbbbbbbb"] "" 0 1
        = (Except.error "boom" : Except String (List Message)) :=
  ⟨rfl, by decide, by decide,
    ensureUnderBudget_error_propagation _ _ _ _ _ _ rfl (by decide) (by decide)⟩

/-! ### Claim C6 — `compressState` structure -/

/-- Claim C6 at the failing input `keepLastN = 0`: `state.slice(-0)` is the
whole array in JS, so `compressState` on a one-message history with
`keepLast = 0` returns the synthetic summary message followed by the entire
input — a list of length 2, where the spec's
`recent = history[len-keepLastN:]` prescribes length `keepLastN + 1 = 1`. -/
theorem compressState_keepLastZero_keepsAll :
    compressState (fun _ => (Except.ok "S" : Except String String)) c6Input "" 0
        = Except.ok c6Result
      ∧ c6Result.length = 2 :=
  ⟨rfl, rfl⟩

end Ideacode

namespace Ideacode

/-! ### Claim C2 — `ensureUnderBudget` postcondition -/

/-- The trimming loop stops under budget or with at most one message. -/
theorem trimLoop_post (sp : Option String) (maxT : Nat) (w : List Message) :
    estimateTokens (trimLoop sp maxT w) sp ≤ maxT ∨ (trimLoop sp maxT w).length ≤ 1 := by
  induction w with
  | nil => right; simp [trimLoop]
  | cons m tail ih =>
    cases tail with
    | nil => right; simp [trimLoop]
    | cons m₂ rest =>
      rw [trimLoop]
      by_cases h : estimateTokens (m :: m₂ :: rest) sp > maxT
      · rw [if_pos h]; exact ih
      · rw [if_neg h]; left; omega

/-- The trimming loop never empties a nonempty history. -/
theorem trimLoop_ne_nil (sp : Option String) (maxT : Nat) (w : List Message)
    (hw : w ≠ []) : trimLoop sp maxT w ≠ [] := by
  induction w with
  | nil => exact absurd rfl hw
  | cons m tail ih =>
    cases tail with
    | nil => simp [trimLoop]
    | cons m₂ rest =>
      rw [trimLoop]
      by_cases h : estimateTokens (m :: m₂ :: rest) sp > maxT
      · rw [if_pos h]; exact ih (by simp)
      · rw [if_neg h]; simp

/-- Claim C2 counterexample: on the empty history with a system prompt whose
estimate exceeds a zero budget, `ensureUnderBudget` returns the empty
history — neither under budget nor of length exactly 1, refuting the
claimed disjunction as stated. -/
theorem ensureUnderBudget_claimC2_cx :
    ensureUnderBudget (fun _ => (Except.ok "S" : Except String String)) [] "hello" 0 8
        = Except.ok []
      ∧ ¬ (estimateTokens ([] : List Message) (some "hello") ≤ 0
            ∨ ([] : List Message).length = 1) :=
  ⟨rfl, by decide⟩

/-- Claim C2 (amended): assuming every summarization call returns a result,
`ensureUnderBudget` always returns a history (never raises, and in
particular never raises from the trimming path, which is total), and the
returned history is under budget or has length at most 1 — exactly 1
whenever the input history was nonempty (the empty history is returned
unchanged). -/
theorem ensureUnderBudget_budget_or_single {ε : Type}
    (summarize : List Message → Except ε String) (state : List Message)
    (systemPrompt : String) (maxTokens keepLast : Nat)
    (hs : ∀ msgs, ∃ s, summarize msgs = Except.ok s) :
    ∃ r, ensureUnderBudget summarize state systemPrompt maxTokens keepLast = .ok r
      ∧ (estimateTokens r (some systemPrompt) ≤ maxTokens ∨ r.length ≤ 1)
      ∧ (state = [] ∨ 1 ≤ r.length) := by
  unfold ensureUnderBudget
  by_cases h1 : estimateTokens state (some systemPrompt) ≤ maxTokens
  · refine ⟨state, by rw [if_pos h1], Or.inl h1, ?_⟩
    cases state with
    | nil => exact Or.inl rfl
    | cons m tail => right; simp
  · rw [if_neg h1]
    by_cases h2 : state.length > keepLast
    · rw [if_pos h2]
      obtain ⟨s, hsum⟩ := hs (state.take (state.length - keepLast))
      unfold compressState
      rw [if_neg (by omega)]
      simp only [hsum]
      refine ⟨_, rfl, trimLoop_post _ _ _, Or.inr ?_⟩
      have hne : trimLoop (some systemPrompt) maxTokens
          ({ role := "assistant",
             content := Json.str (buildSummaryEnvelope s
               (extractPinnedFacts (List.take (state.length - keepLast) state))) }
            :: jsSliceNeg state keepLast) ≠ [] :=
        trimLoop_ne_nil _ _ _ (by simp)
      exact List.length_pos.mpr hne
    · rw [if_neg h2]
      refine ⟨_, rfl, trimLoop_post _ _ _, ?_⟩
      cases state with
      | nil => exact Or.inl rfl
      | cons m tail =>
        exact Or.inr (List.length_pos.mpr (trimLoop_ne_nil _ _ _ (by simp)))

/-- Witness for the amended C2 theorem at a concrete input. -/
theorem ensureUnderBudget_budget_or_single_witness :
    (∀ msgs : List Message, ∃ s, (fun _ => (Except.ok "S" : Except String String)) msgs
        = Except.ok s)
      ∧ ∃ r, ensureUnderBudget (fun _ => (Except.ok "S" : Except String String))
            [strMsg "user" "aaaaaaaa", strMsg "user" "bbbbbbbb"] "" 3 1 = .ok r
          ∧ (estimateTokens r (some "") ≤ 3 ∨ r.length ≤ 1)
          ∧ ([strMsg "user" "aaaaaaaa", strMsg "user" "bbbbbbbb"] = ([] : List Message)
              ∨ 1 ≤ r.length) :=
  ⟨fun _ => ⟨"S", rfl⟩,
    ensureUnderBudget_budget_or_single _ _ _ _ _ (fun _ => ⟨"S", rfl⟩)⟩

end Ideacode

namespace Ideacode

/-! ### Claim C10 — totality of the `runTool` dispatch boundary -/

/-- Claim C10: `runTool` is total at the tool-dispatch boundary — for every
tool name string and argument map it returns a string: an unknown (or
unavailable) name yields a string beginning with `error:`, and when the name
dispatches, a raised implementation exception is caught and returned as a
string beginning with `error:` while a resolved result is returned as-is. -/
theorem runTool_claimC10 (braveKey : Option String) (impls : String → Json → ToolOutcome)
    (name : String) (args : Json) :
    (¬ (getToolNames braveKey).contains (normalizeToolName name) = true →
        ∃ rest, runTool braveKey impls name args = "error:" ++ rest)
      ∧ ((getToolNames braveKey).contains (normalizeToolName name) = true →
          (∀ m, impls (normalizeToolName name) args = .thrown m →
            runTool braveKey impls name args = "error: " ++ m)
          ∧ (∀ s, impls (normalizeToolName name) args = .ok s →
            runTool braveKey impls name args = s)) := by
  unfold runTool
  by_cases hb : normalizeToolName name = "web_search" ∧ ¬ strTruthy braveKey = true
  · rw [if_pos hb]
    constructor
    · intro _
      exact ⟨" Brave Search API key not set. Use /brave or set BRAVE_API_KEY to enable web search.",
        rfl⟩
    · intro hc
      exfalso
      obtain ⟨hws, hkey⟩ := hb
      rw [hws] at hc
      unfold getToolNames at hc
      rw [if_neg hkey] at hc
      exact absurd hc (by decide)
  · rw [if_neg hb]
    by_cases hc : (getToolNames braveKey).contains (normalizeToolName name) = true
    · rw [if_pos hc]
      refine ⟨fun h => absurd hc h, fun _ => ⟨fun m hm => ?_, fun s hs => ?_⟩⟩
      · rw [hm]
      · rw [hs]
    · rw [if_neg hc]
      refine ⟨fun _ => ⟨" Unknown tool: " ++ normalizeToolName name, ?_⟩, fun h => absurd h hc⟩
      rw [← str_append_assoc]
      rfl

/-- Witness for the C10 theorem: an unregistered name yields an
`error:`-marked string, and a thrown implementation exception on a
registered name (here `bash`, reached through trim/lowercase
normalisation) is returned as an `error:`-marked string. -/
theorem runTool_claimC10_witness :
    (¬ (getToolNames none).contains (normalizeToolName "frobnicate") = true
      ∧ ∃ rest, runTool none (fun _ _ => ToolOutcome.thrown "boom") "frobnicate" (Json.obj [])
          = "error:" ++ rest)
    ∧ ((getToolNames none).contains (normalizeToolName "  BASH ") = true
      ∧ runTool none (fun _ _ => ToolOutcome.thrown "boom") "  BASH " (Json.obj [])
          = "error: " ++ "boom") :=
  ⟨⟨by decide, (runTool_claimC10 none (fun _ _ => ToolOutcome.thrown "boom") "frobnicate"
      (Json.obj [])).1 (by decide)⟩,
   ⟨by decide, ((runTool_claimC10 none (fun _ _ => ToolOutcome.thrown "boom") "  BASH "
      (Json.obj [])).2 (by decide)).1 "boom" rfl⟩⟩

end Ideacode

namespace Ideacode

/-! ### Claim C5 — rate-limit retry policy (modelled from the spec) -/

/-- When every attempt in reach is rate-limited, the retry loop exhausts its
remaining attempts, reports one progress event per wait, and surfaces the
last status as the fatal error. -/
theorem retryFrom_all_limited (responses : Nat → ApiResponse) (baseDelayMs maxAttempts : Nat) :
    ∀ rem attempt,
      (∀ j, j < rem + 1 → isRateLimited (responses (attempt + j)).status = true) →
      retryFrom responses baseDelayMs maxAttempts attempt rem
        = (.error (responses (attempt + rem)).status,
           (List.range' attempt rem).map (retryEventAt responses baseDelayMs maxAttempts)) := by
  intro rem
  induction rem with
  | zero =>
    intro attempt hall
    have h0 := hall 0 (by omega)
    simp only [Nat.add_zero] at h0
    rw [retryFrom]
    simp [h0]
  | succ rem ih =>
    intro attempt hall
    have h0 := hall 0 (by omega)
    simp only [Nat.add_zero] at h0
    have ihr := ih (attempt + 1) (fun j hj => by
      have := hall (j + 1) (by omega)
      rwa [show attempt + (j + 1) = attempt + 1 + j by omega] at this)
    rw [retryFrom]
    simp only [h0, Bool.not_true, Bool.false_eq_true, if_false, ihr]
    rw [show attempt + (rem + 1) = attempt + 1 + rem by omega, List.range'_succ]
    rfl

/-- When some attempt in reach is the first non-rate-limited one, the retry
loop returns its content successfully, after one progress event per
preceding wait. -/
theorem retryFrom_first_success (responses : Nat → ApiResponse) (baseDelayMs maxAttempts : Nat) :
    ∀ rem attempt k, attempt ≤ k → k ≤ attempt + rem →
      isRateLimited (responses k).status = false →
      (∀ j, attempt ≤ j → j < k → isRateLimited (responses j).status = true) →
      (retryFrom responses baseDelayMs maxAttempts attempt rem).1 = .ok (responses k).content
        ∧ (retryFrom responses baseDelayMs maxAttempts attempt rem).2.length = k - attempt := by
  intro rem
  induction rem with
  | zero =>
    intro attempt k hak hka hok _
    have hk : k = attempt := by omega
    subst hk
    rw [retryFrom]
    simp [hok]
  | succ rem ih =>
    intro attempt k hak hka hok hbefore
    rcases Nat.eq_or_lt_of_le hak with heq | hlt
    · subst heq
      rw [retryFrom]
      simp [hok]
    · have hlim := hbefore attempt (Nat.le_refl _) hlt
      rw [retryFrom]
      rw [hlim]
      simp only [Bool.not_true, Bool.false_eq_true, if_false]
      have ihr := ih (attempt + 1) k (by omega) (by omega) hok
        (fun j hj1 hj2 => hbefore j (by omega) hj2)
      constructor
      · exact ihr.1
      · simp only [List.length_cons]
        rw [ihr.2]
        omega

/-- Claim C5 (modelled from the spec, §4.6: the retrying wrapper is absent
from `src/src/api.ts` though `repl.tsx` passes it an `onRetry` callback):
a rate-limited model round-trip is retried with a bounded number of
attempts (`maxAttempts` in total); before each wait the progress callback is
invoked with exactly `(attempt, maxAttempts, waitMs, status)`; the failure
surfaces as a fatal error only when all `maxAttempts` attempts were
rate-limited, and a first succeeding attempt within the bound yields its
response instead. -/
theorem callApiWithRetry_claimC5 (responses : Nat → ApiResponse)
    (baseDelayMs maxAttempts : Nat) (hpos : 1 ≤ maxAttempts) :
    ((∀ k, k ≤ maxAttempts → 1 ≤ k → isRateLimited (responses k).status = true) →
        (callApiWithRetry responses baseDelayMs maxAttempts).1
            = .error (responses maxAttempts).status
          ∧ (callApiWithRetry responses baseDelayMs maxAttempts).2
            = (List.range' 1 (maxAttempts - 1)).map
                (retryEventAt responses baseDelayMs maxAttempts))
      ∧ (∀ k, k ≤ maxAttempts → 1 ≤ k → isRateLimited (responses k).status = false →
          (∀ j, j < k → 1 ≤ j → isRateLimited (responses j).status = true) →
          (callApiWithRetry responses baseDelayMs maxAttempts).1 = .ok (responses k).content
            ∧ (callApiWithRetry responses baseDelayMs maxAttempts).2.length = k - 1) := by
  constructor
  · intro hall
    unfold callApiWithRetry
    rw [retryFrom_all_limited responses baseDelayMs maxAttempts (maxAttempts - 1) 1
      (fun j hj => hall (1 + j) (by omega) (by omega))]
    rw [show 1 + (maxAttempts - 1) = maxAttempts by omega]
    exact ⟨rfl, rfl⟩
  · intro k hk1 hk2 hok hbefore
    unfold callApiWithRetry
    exact retryFrom_first_success responses baseDelayMs maxAttempts (maxAttempts - 1) 1 k
      hk2 (by omega) hok (fun j hj1 hj2 => hbefore j hj2 hj1)

/-- Witness for C5's theorem: the sample outcomes are rate-limited on
attempts 1 and 2 and succeed on attempt 3 of 5, so the wrapper returns the
third response's content after two waits. -/
theorem callApiWithRetry_claimC5_witness :
    isRateLimited (sampleRetryResponses 3).status = false
      ∧ (callApiWithRetry sampleRetryResponses 1000 5).1
          = .ok [{ type := "text", text := some "hi" }]
      ∧ (callApiWithRetry sampleRetryResponses 1000 5).2.length = 3 - 1 :=
  ⟨by decide,
    ((callApiWithRetry_claimC5 sampleRetryResponses 1000 5 (by decide)).2 3 (by decide)
      (by decide) (by decide) (by decide)).1,
    ((callApiWithRetry_claimC5 sampleRetryResponses 1000 5 (by decide)).2 3 (by decide)
      (by decide) (by decide) (by decide)).2⟩

end Ideacode

namespace Ideacode

/-! ### Claim C4 — two-fragment tool call emitted exactly once -/

/-- Claim C4: a `tool_calls` delta for index 0 carrying the call id, the
name `read` and the fragment `{"pat`, followed by the fragment
`h": "a.txt"}` and a finish event, yields exactly one `ToolUse` block with
name `read` and input `{path: "a.txt"}` — emitted once at the second
fragment and not re-emitted by the finish-time flush, because the slot is
reset (losing its id and name) after emission. -/
theorem streamDecoder_claimC4 :
    runDecoder
        [ .chunk none (some [⟨some 0, some "call_1", some "read", some "\x7b\"pat"⟩]) none,
          .chunk none (some [⟨some 0, none, none, some "h\": \"a.txt\"\x7d"⟩]) none,
          finishEvent ]
      = [{ type := "tool_use", name := some "read",
           input := some (.obj [("path", .str "a.txt")]), id := some "call_1" }] := rfl

/-! ### Claim C9 — fragment-split invariance of argument accumulation -/

/-- Claim C9 counterexample: the arguments string `" {\"a\":1\x7d"` is valid
JSON, but splitting it into the non-empty fragments `" "` and `"{\"a\":1\x7d"`
makes the decoder emit the empty object at the first (all-whitespace)
fragment and then drop the rest in the reset slot — the emitted input
differs from feeding the string whole. -/
theorem streamDecoder_claimC9_cx :
    parseJson " \x7b\"a\":1\x7d" = some (.obj [("a", .num 1)])
      ∧ runDecoder [headDeltaEvent "call_1" "read" " ", argDeltaEvent "\x7b\"a\":1\x7d", finishEvent]
          ≠ runDecoder [headDeltaEvent "call_1" "read" " \x7b\"a\":1\x7d", finishEvent] := by
  refine ⟨rfl, fun h => ?_⟩
  have h' : ([{ type := "tool_use", name := some "read", input := some (.obj []),
                id := some "call_1" }] : List ContentBlock)
      = [{ type := "tool_use", name := some "read", input := some (.obj [("a", .num 1)]),
           id := some "call_1" }] := h
  simp at h'
end Ideacode

namespace Ideacode

/-- Finishing the stream on a slot with truthy id and name and accumulated
arguments `p` emits according to `emitOutcome`. -/
theorem decodeLoop_finish_slot (tid tname p : String) (htid : tid ≠ "") (htname : tname ≠ "") :
    decodeLoop (slotState tid tname p) [finishEvent] = emitOutcome tid tname p := by
  have hnil : jsTrim "" = "" := rfl
  by_cases hw : jsTrim p = ""
  · simp [decodeLoop, processEvent, finishEvent, flushRemainingToolCalls, tryEmitToolCall,
      decodeFinish, slotState, emitOutcome, emittedBlock, strTruthy, htid, htname, hw, hnil,
      List.range_succ]
  · cases hp : parseJson p with
    | some j =>
      simp [decodeLoop, processEvent, finishEvent, flushRemainingToolCalls, tryEmitToolCall,
        decodeFinish, slotState, emitOutcome, emittedBlock, strTruthy, htid, htname, hw, hp,
        hnil, List.range_succ]
    | none =>
      simp [decodeLoop, processEvent, finishEvent, flushRemainingToolCalls, tryEmitToolCall,
        decodeFinish, slotState, emitOutcome, emittedBlock, strTruthy, htid, htname, hw, hp,
        hnil, List.range_succ]

/-- Finishing the stream on an already-reset slot (no id, no name) emits
nothing further: the block list stands. -/
theorem decodeLoop_finish_dead (a : String) (blocks : List ContentBlock) :
    decodeLoop (deadSlotState a blocks) [finishEvent] = blocks := by
  have hnil : jsTrim "" = "" := rfl
  simp [decodeLoop, processEvent, finishEvent, flushRemainingToolCalls, tryEmitToolCall,
    decodeFinish, deadSlotState, strTruthy, hnil, List.range_succ]

/-- Processing one argument-only fragment on a live slot: the fragment is
appended; the slot emits and resets when the buffer is all-whitespace or
parses, and stays pending otherwise. -/
theorem processEvent_argDelta (tid tname p f : String) (htid : tid ≠ "") (htname : tname ≠ "") :
    processEvent (slotState tid tname p) (argDeltaEvent f)
      = (if jsTrim (p ++ f) = "" then
           deadSlotState "" [emittedBlock tid tname (.obj [])]
         else
           match parseJson (p ++ f) with
           | some j => deadSlotState "" [emittedBlock tid tname j]
           | none => slotState tid tname (p ++ f),
         none) := by
  by_cases hw : jsTrim (p ++ f) = ""
  · simp [processEvent, argDeltaEvent, applyToolDelta, ensureSlot, emitAll, tryEmitToolCall,
      slotState, deadSlotState, emittedBlock, strTruthy, htid, htname, hw, List.range_succ]
  · cases hp : parseJson (p ++ f) with
    | some j =>
      simp [processEvent, argDeltaEvent, applyToolDelta, ensureSlot, emitAll, tryEmitToolCall,
        slotState, deadSlotState, emittedBlock, strTruthy, htid, htname, hw, hp, List.range_succ]
    | none =>
      simp [processEvent, argDeltaEvent, applyToolDelta, ensureSlot, emitAll, tryEmitToolCall,
        slotState, deadSlotState, emittedBlock, strTruthy, htid, htname, hw, hp, List.range_succ]

end Ideacode

namespace Ideacode

/-- `strConcat` of a singleton. -/
theorem strConcat_singleton (s : String) : strConcat [s] = s := str_append_empty s

/-- Feeding argument fragments to a live slot: as long as no intermediate
accumulated buffer is all-whitespace or parses as JSON, the decoder just
concatenates, and the final outcome depends only on the full concatenation. -/
theorem decode_arg_fragments (tid tname : String) (htid : tid ≠ "") (htname : tname ≠ "") :
    ∀ (fs : List String) (p : String),
      (∀ j, j + 1 < fs.length → jsTrim (p ++ strConcat (fs.take (j + 1))) ≠ ""
          ∧ parseJson (p ++ strConcat (fs.take (j + 1))) = none) →
      decodeLoop (slotState tid tname p) (fs.map argDeltaEvent ++ [finishEvent])
        = emitOutcome tid tname (p ++ strConcat fs) := by
  intro fs
  induction fs with
  | nil =>
    intro p _
    rw [List.map_nil, List.nil_append, decodeLoop_finish_slot tid tname p htid htname,
      show strConcat [] = "" from rfl, str_append_empty]
  | cons f fs ih =>
    intro p h
    rw [List.map_cons, List.cons_append, decodeLoop,
      processEvent_argDelta tid tname p f htid htname]
    cases fs with
    | nil =>
      by_cases hw : jsTrim (p ++ f) = ""
      · rw [if_pos hw]
        show decodeLoop (deadSlotState "" [emittedBlock tid tname (.obj [])]) [finishEvent] = _
        rw [decodeLoop_finish_dead]
        have harg : p ++ strConcat [f] = p ++ f := by rw [strConcat_singleton]
        rw [harg]
        unfold emitOutcome
        rw [if_pos hw]
      · rw [if_neg hw]
        cases hp : parseJson (p ++ f) with
        | some j =>
          simp only [hp]
          show decodeLoop (deadSlotState "" [emittedBlock tid tname j]) [finishEvent] = _
          rw [decodeLoop_finish_dead]
          have harg : p ++ strConcat [f] = p ++ f := by rw [strConcat_singleton]
          rw [harg]
          unfold emitOutcome
          rw [if_neg hw, hp]
        | none =>
          simp only [hp]
          show decodeLoop (slotState tid tname (p ++ f)) [finishEvent] = _
          rw [decodeLoop_finish_slot tid tname (p ++ f) htid htname]
          have harg : p ++ strConcat [f] = p ++ f := by rw [strConcat_singleton]
          rw [harg]
    | cons g rest =>
      have h0 := h 0 (by simp)
      rw [show strConcat ((f :: g :: rest).take (0 + 1)) = f ++ "" from rfl,
        str_append_empty] at h0
      rw [if_neg h0.1]
      simp only [h0.2]
      show decodeLoop (slotState tid tname (p ++ f))
          ((g :: rest).map argDeltaEvent ++ [finishEvent]) = _
      rw [ih (p ++ f) (fun j hj => by
        have hh := h (j + 1) (by simp only [List.length_cons] at hj ⊢; omega)
        have hh' : jsTrim (p ++ (f ++ strConcat ((g :: rest).take (j + 1)))) ≠ ""
            ∧ parseJson (p ++ (f ++ strConcat ((g :: rest).take (j + 1)))) = none := hh
        rw [← str_append_assoc] at hh'
        exact hh')]
      rw [str_append_assoc]
      rfl

/-- The first fragment's delta (carrying id and name) acts on the empty
state exactly as an argument-only delta acts on a fresh live slot. -/
theorem processEvent_headDelta (tid tname g : String) (htid : tid ≠ "") (htname : tname ≠ "") :
    processEvent ({} : DecState) (headDeltaEvent tid tname g)
      = processEvent (slotState tid tname "") (argDeltaEvent g) := by
  simp [processEvent, headDeltaEvent, argDeltaEvent, applyToolDelta, ensureSlot, emitAll,
    slotState, strTruthy, htid, htname]

/-- Claim C9 (amended): splitting an arguments string into non-empty
fragments and feeding them as separate events yields the same emitted
blocks as feeding it whole, provided no proper accumulated prefix is
all-whitespace or itself parses as JSON (the decoder attempts emission after
every fragment, so such a prefix would emit early and reset the slot; for an
arguments string that is a JSON object with no leading whitespace, no proper
prefix can trigger this). -/
theorem streamDecoder_claimC9_amended (tid tname : String) (htid : tid ≠ "")
    (htname : tname ≠ "") (f : String) (fs : List String)
    (h : ∀ j, j < fs.length → jsTrim (strConcat (f :: fs.take j)) ≠ ""
        ∧ parseJson (strConcat (f :: fs.take j)) = none) :
    runDecoder (headDeltaEvent tid tname f :: (fs.map argDeltaEvent ++ [finishEvent]))
      = runDecoder [headDeltaEvent tid tname (strConcat (f :: fs)), finishEvent] := by
  have hL : runDecoder (headDeltaEvent tid tname f :: (fs.map argDeltaEvent ++ [finishEvent]))
      = decodeLoop (slotState tid tname "")
          (argDeltaEvent f :: (fs.map argDeltaEvent ++ [finishEvent])) := by
    unfold runDecoder
    rw [decodeLoop, decodeLoop, processEvent_headDelta tid tname f htid htname]
  have hR : runDecoder [headDeltaEvent tid tname (strConcat (f :: fs)), finishEvent]
      = decodeLoop (slotState tid tname "")
          (argDeltaEvent (strConcat (f :: fs)) :: [finishEvent]) := by
    unfold runDecoder
    rw [decodeLoop, decodeLoop, processEvent_headDelta tid tname (strConcat (f :: fs)) htid htname]
  rw [hL, hR]
  have eL := decode_arg_fragments tid tname htid htname (f :: fs) "" (fun j hj => by
    have hh := h j (by simp only [List.length_cons] at hj; omega)
    have hh' : jsTrim ("" ++ strConcat (f :: fs.take j)) ≠ ""
        ∧ parseJson ("" ++ strConcat (f :: fs.take j)) = none := by
      rw [str_empty_append]; exact hh
    exact hh')
  have eR := decode_arg_fragments tid tname htid htname [strConcat (f :: fs)] ""
    (fun j hj => absurd hj (by simp))
  rw [show (f :: fs).map argDeltaEvent ++ [finishEvent]
      = argDeltaEvent f :: (fs.map argDeltaEvent ++ [finishEvent]) from rfl] at eL
  rw [show ([strConcat (f :: fs)].map argDeltaEvent ++ [finishEvent] : List StreamEvent)
      = argDeltaEvent (strConcat (f :: fs)) :: [finishEvent] from rfl] at eR
  rw [eL, eR, strConcat_singleton]

/-- Witness for the amended C9 theorem: the object string `{"a":1}` split
into the fragments `{"a` and `":1}` — the proper prefix `{"a` is neither
whitespace-only nor valid JSON, and both feeds emit the same block. -/
theorem streamDecoder_claimC9_amended_witness :
    (∀ j, j < ([":1\x7d"] : List String).length →
        jsTrim (strConcat ("\x7b\"a" :: [":1\x7d"].take j)) ≠ ""
          ∧ parseJson (strConcat ("\x7b\"a" :: [":1\x7d"].take j)) = none)
      ∧ runDecoder (headDeltaEvent "call_1" "read" "\x7b\"a"
            :: ([":1\x7d"].map argDeltaEvent ++ [finishEvent]))
          = runDecoder [headDeltaEvent "call_1" "read" (strConcat ["\x7b\"a", ":1\x7d"]), finishEvent] :=
  ⟨by
    intro j hj
    have hj0 : j = 0 := by simpa using hj
    subst hj0
    exact ⟨by decide, rfl⟩,
   streamDecoder_claimC9_amended "call_1" "read" (by decide) (by decide) "\x7b\"a" [":1\x7d"]
     (by
       intro j hj
       have hj0 : j = 0 := by simpa using hj
       subst hj0
       exact ⟨by decide, rfl⟩)⟩

end Ideacode

namespace Ideacode

/-! ### Claim C3 — scheduler ordering and safety -/

/-- Flattening the scheduling steps recovers the pending batch followed by
the dispatched tool calls in request order. -/
theorem scheduleLoop_calls (enableParallel : Bool) :
    ∀ (bs : List ContentBlock) (acc : List PlannedToolCall),
      (scheduleLoop enableParallel acc bs).flatMap stepCalls
        = acc ++ (bs.filter isDispatchedToolUse).map plannedOf := by
  intro bs
  induction bs with
  | nil =>
    intro acc
    cases acc with
    | nil => rfl
    | cons p rest => simp [scheduleLoop, stepCalls]
  | cons b rest ih =>
    intro acc
    rw [scheduleLoop]
    cases hd : isDispatchedToolUse b with
    | false => simp [hd, ih, List.filter_cons]
    | true =>
      by_cases hsafe : (enableParallel && PARALLEL_SAFE_TOOLS.contains (plannedOf b).toolName) = true
      · simp only [hd, Bool.not_true, Bool.false_eq_true, if_false, hsafe, if_true]
        rw [ih (acc ++ [plannedOf b])]
        simp [List.filter_cons, hd]
      · simp only [hd, Bool.not_true, Bool.false_eq_true, if_false, hsafe]
        rw [List.flatMap_append, List.flatMap_cons, ih []]
        cases acc with
        | nil => simp [List.filter_cons, hd, stepCalls]
        | cons q qs => simp [List.filter_cons, hd, stepCalls]

/-- With parallel dispatch enabled, every emitted step is either a nonempty
batch of allow-listed calls or a single non-allow-listed call. -/
theorem scheduleLoop_safety :
    ∀ (bs : List ContentBlock) (acc : List PlannedToolCall),
      (∀ p ∈ acc, isSafeCall p = true) →
      ∀ s ∈ scheduleLoop true acc bs,
        (∀ ps, s = .batch ps → ps ≠ [] ∧ ∀ p ∈ ps, isSafeCall p = true)
          ∧ (∀ p, s = .seq p → isSafeCall p = false) := by
  intro bs
  induction bs with
  | nil =>
    intro acc hacc s hs
    cases acc with
    | nil => simp [scheduleLoop] at hs
    | cons q qs =>
      simp [scheduleLoop] at hs
      subst hs
      exact ⟨fun ps hps => by
          cases hps
          exact ⟨by simp, hacc⟩,
        fun p hp => by cases hp⟩
  | cons b rest ih =>
    intro acc hacc s hs
    rw [scheduleLoop] at hs
    cases hd : isDispatchedToolUse b with
    | false =>
      rw [hd] at hs
      simp only [Bool.not_false, if_true] at hs
      exact ih acc hacc s hs
    | true =>
      rw [hd] at hs
      simp only [Bool.not_true, Bool.false_eq_true, if_false] at hs
      by_cases hsafe : (true && PARALLEL_SAFE_TOOLS.contains (plannedOf b).toolName) = true
      · rw [if_pos hsafe] at hs
        refine ih (acc ++ [plannedOf b]) ?_ s hs
        intro p hp
        rcases List.mem_append.mp hp with h1 | h2
        · exact hacc p h1
        · rcases List.mem_singleton.mp h2 with rfl
          simpa [isSafeCall] using hsafe
      · rw [if_neg hsafe] at hs
        rcases List.mem_append.mp hs with h1 | h2
        · cases acc with
          | nil => simp at h1
          | cons q qs =>
            simp only [List.isEmpty_cons, Bool.false_eq_true, if_false,
              List.mem_singleton] at h1
            subst h1
            refine ⟨fun ps hps => ?_, fun p hp => (nomatch hp)⟩
            cases hps
            exact ⟨by simp, hacc⟩
        · rcases List.mem_cons.mp h2 with h3 | h4
          · subst h3
            refine ⟨fun ps hps => (nomatch hps), fun p hp => ?_⟩
            cases hp
            simpa [isSafeCall] using hsafe
          · exact ih [] (by simp) s h4

end Ideacode

namespace Ideacode

/-- A truthy optional string is a nonempty `some`. -/
theorem strTruthy_some (o : Option String) (h : strTruthy o = true) :
    ∃ s, o = some s ∧ s ≠ "" := by
  cases o with
  | none => simp [strTruthy] at h
  | some s => exact ⟨s, rfl, by simpa [strTruthy] using h⟩

/-- A step's results are its calls' results. -/
theorem stepResults_eq (runT : String → Json → String) (s : SchedStep) :
    stepResults runT s = (stepCalls s).flatMap (resultOfPlanned runT) := by
  cases s with
  | batch ps => rfl
  | seq p => simp [stepResults, stepCalls]

/-- Results of a step list are the results of its flattened calls. -/
theorem flatMap_stepResults (runT : String → Json → String) :
    ∀ steps : List SchedStep,
      steps.flatMap (stepResults runT) = (steps.flatMap stepCalls).flatMap (resultOfPlanned runT) := by
  intro steps
  induction steps with
  | nil => rfl
  | cons s rest ih =>
    rw [List.flatMap_cons, List.flatMap_cons, List.flatMap_append, ih, stepResults_eq]

/-- `toolResults` is the dispatched blocks' results in request order. -/
theorem toolResultsOf_flat (runT : String → Json → String) (enableParallel : Bool)
    (bs : List ContentBlock) :
    toolResultsOf runT enableParallel bs
      = ((bs.filter isDispatchedToolUse).map plannedOf).flatMap (resultOfPlanned runT) := by
  unfold toolResultsOf schedule
  rw [flatMap_stepResults, scheduleLoop_calls]
  rw [List.nil_append]

/-- The result ids are the ids of the dispatched id-carrying blocks, in
request order. -/
theorem resultIds_general (runT : String → Json → String) :
    ∀ bs : List ContentBlock,
      (((bs.filter isDispatchedToolUse).map plannedOf).flatMap (resultOfPlanned runT)).map
          (fun r => r.tool_use_id)
        = (bs.filter producesResult).map (fun b => b.id.getD "") := by
  intro bs
  induction bs with
  | nil => rfl
  | cons b rest ih =>
    rw [List.filter_cons, List.filter_cons]
    cases hd : isDispatchedToolUse b with
    | false =>
      rw [show producesResult b = false from by simp [producesResult, hd]]
      simpa using ih
    | true =>
      cases hid : strTruthy b.id with
      | false =>
        rw [show producesResult b = false from by simp [producesResult, hd, hid]]
        simp only [if_pos, Bool.false_eq_true, if_false]
        rw [List.map_cons, List.flatMap_cons,
          show resultOfPlanned runT (plannedOf b) = [] from by simp [resultOfPlanned, plannedOf, hid]]
        simpa using ih
      | true =>
        rw [show producesResult b = true from by simp [producesResult, hd, hid]]
        simp only [if_pos]
        rw [List.map_cons, List.flatMap_cons,
          show resultOfPlanned runT (plannedOf b)
              = [{ tool_use_id := b.id.getD "",
                   content := truncateToolResult (runT (plannedOf b).toolName (plannedOf b).toolArgs) }]
            from by simp [resultOfPlanned, plannedOf, hid]]
        simp only [List.map_cons, List.map_append, List.singleton_append, List.map,
          List.append_nil, List.nil_append, List.append_eq]
        rw [ih]

end Ideacode

namespace Ideacode

/-- Under well-formedness, the id list of the dispatched id-carrying blocks
is the `filterMap` of the `tool_use` blocks' ids. -/
theorem producesResult_ids (bs : List ContentBlock)
    (hw : ∀ b ∈ bs, b.type = "tool_use" →
      strTruthy b.name = true ∧ jsonTruthyOpt b.input = true ∧ strTruthy b.id = true) :
    (bs.filter producesResult).map (fun b => b.id.getD "")
      = (bs.filter (fun b => b.type == "tool_use")).filterMap (fun b => b.id) := by
  induction bs with
  | nil => rfl
  | cons b rest ih =>
    have ihr := ih (fun b hb ht => hw b (List.mem_cons_of_mem _ hb) ht)
    rw [List.filter_cons, List.filter_cons]
    cases ht : (b.type == "tool_use") with
    | false =>
      rw [show producesResult b = false from by
        simp [producesResult, isDispatchedToolUse, ht]]
      simpa using ihr
    | true =>
      have ht' : b.type = "tool_use" := by simpa using ht
      obtain ⟨hname, hinput, hid⟩ := hw b (List.mem_cons_self _ _) ht'
      obtain ⟨s, hsid, _⟩ := strTruthy_some _ hid
      rw [show producesResult b = true from by
        simp [producesResult, isDispatchedToolUse, ht, hname, hinput, hid]]
      simp only [if_pos, List.map_cons, List.filterMap_cons, hsid]
      rw [ihr]
      rfl

/-- Claim C3: with parallel dispatch enabled and well-formed `ToolUse`
blocks (name, input and id present), the scheduler (a) executes the blocks
as an ordered sequence of steps — each step completing, and a batch settling
all its calls, before the next step starts — whose flattening is exactly the
dispatched calls in request order, (b) emits only nonempty batches of
allow-listed calls and singleton steps of non-allow-listed calls (so
`write`/`edit`/`bash` run strictly sequentially in request order, after any
pending batch is awaited and drained), and (c) produces the final
`ToolResult` list ordered exactly by the original request order of the call
ids. -/
theorem scheduler_claimC3 (runT : String → Json → String) (blocks : List ContentBlock)
    (hw : ∀ b ∈ blocks, b.type = "tool_use" →
      strTruthy b.name = true ∧ jsonTruthyOpt b.input = true ∧ strTruthy b.id = true) :
    ((schedule true blocks).flatMap stepCalls
        = (blocks.filter (fun b => b.type == "tool_use")).map plannedOf)
      ∧ (∀ s ∈ schedule true blocks,
          (∀ ps, s = .batch ps → ps ≠ [] ∧ ∀ p ∈ ps, isSafeCall p = true)
            ∧ (∀ p, s = .seq p → isSafeCall p = false))
      ∧ ((toolResultsOf runT true blocks).map (fun r => r.tool_use_id)
          = (blocks.filter (fun b => b.type == "tool_use")).filterMap (fun b => b.id)) := by
  have hfilters : blocks.filter isDispatchedToolUse
      = blocks.filter (fun b => b.type == "tool_use") := by
    refine List.filter_congr ?_
    intro b hb
    cases ht : (b.type == "tool_use") with
    | false => simp [isDispatchedToolUse, ht]
    | true =>
      have ht' : b.type = "tool_use" := by simpa using ht
      obtain ⟨hname, hinput, _⟩ := hw b hb ht'
      simp [isDispatchedToolUse, ht, hname, hinput]
  refine ⟨?_, ?_, ?_⟩
  · rw [schedule, scheduleLoop_calls, List.nil_append, hfilters]
  · exact scheduleLoop_safety blocks [] (by simp)
  · rw [toolResultsOf_flat, resultIds_general, producesResult_ids blocks hw]

/-- Witness for C3's theorem at Scenario E: `read`, `glob`, `grep` and then
`write` with ids `c1..c4`. -/
theorem scheduler_claimC3_witness :
    (∀ b ∈ scenarioE, b.type = "tool_use" →
      strTruthy b.name = true ∧ jsonTruthyOpt b.input = true ∧ strTruthy b.id = true)
      ∧ (((schedule true scenarioE).flatMap stepCalls
            = (scenarioE.filter (fun b => b.type == "tool_use")).map plannedOf)
          ∧ (∀ s ∈ schedule true scenarioE,
              (∀ ps, s = .batch ps → ps ≠ [] ∧ ∀ p ∈ ps, isSafeCall p = true)
                ∧ (∀ p, s = .seq p → isSafeCall p = false))
          ∧ (((toolResultsOf (fun _ _ => "r") true scenarioE).map (fun r => r.tool_use_id))
              = (scenarioE.filter (fun b => b.type == "tool_use")).filterMap (fun b => b.id))) :=
  ⟨by decide, scheduler_claimC3 (fun _ _ => "r") scenarioE (by decide)⟩

end Ideacode

namespace Ideacode

/-! ### Claim C8 — tool-result correspondence in the turn loop -/

/-- The dispatch loop's result list always matches its response's blocks:
every result id references a `tool_use` block, and the result ids are
exactly the dispatched id-carrying blocks' ids in request order. -/
theorem resultsMatchB_correct (runT : String → Json → String) (enableParallel : Bool)
    (blocks : List ContentBlock) :
    resultsMatchB blocks (toolResultsOf runT enableParallel blocks) = true := by
  unfold resultsMatchB
  rw [Bool.and_eq_true]
  constructor
  · rw [List.all_eq_true]
    intro r hr
    rw [toolResultsOf_flat, List.mem_flatMap] at hr
    obtain ⟨p, hp, hrp⟩ := hr
    rw [List.mem_map] at hp
    obtain ⟨b, hbf, rfl⟩ := hp
    rw [List.mem_filter] at hbf
    obtain ⟨hbmem, hbd⟩ := hbf
    simp only [isDispatchedToolUse, Bool.and_eq_true] at hbd
    unfold resultOfPlanned at hrp
    by_cases hid : strTruthy (plannedOf b).block.id = true
    · rw [if_pos hid] at hrp
      rw [List.mem_singleton] at hrp
      subst hrp
      rw [List.any_eq_true]
      refine ⟨b, hbmem, ?_⟩
      simp only [plannedOf] at hid
      obtain ⟨s, hsid, _⟩ := strTruthy_some _ hid
      simp [plannedOf, hbd.1.1, hsid]
    · rw [if_neg hid] at hrp
      simp at hrp
  · rw [toolResultsOf_flat]
    have hids := resultIds_general runT blocks
    rw [show ((((blocks.filter isDispatchedToolUse).map plannedOf).flatMap
          (resultOfPlanned runT)).map fun r => r.tool_use_id)
        = (blocks.filter producesResult).map (fun b => b.id.getD "") from hids]
    simp

/-- A message that is not a tool-results message passes `checkPair` against
any predecessor. -/
theorem checkPair_non_results (prev m : RMessage) (h : isResultsMsg m = false) :
    checkPair prev m = true := by
  unfold checkPair
  unfold isResultsMsg at h
  cases hm : m.content with
  | text s => rfl
  | blocks bs => rfl
  | results rs => rw [hm] at h; cases h

/-- `invFrom` splits across an append, threading the last predecessor. -/
theorem invFrom_append (xs : List RMessage) : ∀ (prev : RMessage) (ys : List RMessage),
    invFrom prev (xs ++ ys) = (invFrom prev xs && invFrom (xs.getLastD prev) ys) := by
  induction xs with
  | nil => intro prev ys; simp [invFrom, List.getLastD]
  | cons x rest ih =>
    intro prev ys
    rw [List.cons_append, invFrom, invFrom, ih x ys, List.getLastD_cons, Bool.and_assoc]

/-- Appending an assistant-blocks message and its matching results message
preserves the conversation-state invariant. -/
theorem InvB_append_pair (st : List RMessage) (bs : List ContentBlock)
    (results : List ToolResultBlock) (hInv : InvB st = true)
    (hmatch : resultsMatchB bs results = true) :
    InvB (st ++ [{ role := "assistant", content := .blocks bs },
                 { role := "user", content := .results results }]) = true := by
  cases st with
  | nil =>
    simp only [List.nil_append, InvB, invFrom, isResultsMsg, checkPair, Bool.and_true,
      Bool.not_false]
    simp [hmatch]
  | cons m rest =>
    rw [InvB] at hInv
    rw [Bool.and_eq_true] at hInv
    rw [List.cons_append, InvB, invFrom_append, hInv.1, hInv.2]
    simp only [Bool.true_and, Bool.and_true]
    rw [invFrom, invFrom, invFrom]
    rw [checkPair_non_results _ _ (by rfl)]
    simp only [Bool.true_and, Bool.and_true]
    simp [checkPair, hmatch]

/-- The invariant holds at every model call of the turn loop. -/
theorem turnCallStates_inv (runT : String → Json → String) (enableParallel : Bool) :
    ∀ (responses : List (List ContentBlock)) (st : List RMessage) (retries : Nat),
      InvB st = true →
      ∀ s ∈ turnCallStates runT enableParallel responses st retries, InvB s = true := by
  intro responses
  induction responses with
  | nil =>
    intro st retries h s hs
    rw [turnCallStates] at hs
    exact absurd hs (List.not_mem_nil s)
  | cons r rest ih =>
    intro st retries h s hs
    rw [turnCallStates, List.mem_cons] at hs
    rcases hs with rfl | htail
    · exact h
    · by_cases hm : (!hasMeaningful r) = true
      · rw [if_pos hm] at htail
        by_cases hrr : retries + 1 ≤ MAX_EMPTY_ASSISTANT_RETRIES
        · rw [if_pos hrr] at htail
          exact ih st (retries + 1) h s htail
        · rw [if_neg hrr] at htail
          exact absurd htail (List.not_mem_nil s)
      · rw [if_neg hm] at htail
        by_cases he : (toolResultsOf runT enableParallel r).isEmpty = true
        · rw [if_pos he] at htail
          exact absurd htail (List.not_mem_nil s)
        · rw [if_neg he] at htail
          refine ih _ 0 ?_ s htail
          rw [List.append_assoc]
          exact InvB_append_pair st r (toolResultsOf runT enableParallel r) h
            (resultsMatchB_correct runT enableParallel r)

end Ideacode

namespace Ideacode

/-- Claim C8 counterexample: a response containing a well-formed `read`
block (id `a`) and a `write` block with no id is appended to the state in
full, but only the `read` call produces a `ToolResult`; the loop continues
to a second model call (the results list is nonempty), so the reachable
state at that call has an assistant message with two `ToolUse` blocks and a
following user message with a single result — the id-less `ToolUse` block
received no `ToolResult` before the next model call, refuting the claim as
stated. -/
theorem turnLoop_claimC8_cx :
    turnCallStates (fun _ _ => "ok") true [[c8BlockA, c8BlockB], [c8TextDone]] c8Start 0
        = [c8Start,
           c8Start ++ [{ role := "assistant", content := .blocks [c8BlockA, c8BlockB] },
                       { role := "user", content := .results [⟨"a", "ok"⟩] }]]
      ∧ ([c8BlockA, c8BlockB].filter (fun b => b.type == "tool_use")).length = 2
      ∧ ([⟨"a", "ok"⟩] : List ToolResultBlock).length = 1 :=
  ⟨rfl, rfl, rfl⟩

/-- Claim C8 (amended): in every reachable conversation state of the turn
loop, every `ToolResult` block's `toolUseId` references a `ToolUse` block
present in the immediately preceding assistant message, and the results
list is exactly — one each, in request order — the ids of those `ToolUse`
blocks that carry an id, a name and an input; `tool_use` blocks missing any
of these are appended with the assistant message but receive no
`ToolResult`. -/
theorem turnLoop_claimC8_amended (runT : String → Json → String) (enableParallel : Bool) :
    (∀ blocks, resultsMatchB blocks (toolResultsOf runT enableParallel blocks) = true)
      ∧ (∀ (responses : List (List ContentBlock)) (st : List RMessage),
          InvB st = true →
          ∀ s ∈ turnCallStates runT enableParallel responses st 0, InvB s = true) :=
  ⟨fun blocks => resultsMatchB_correct runT enableParallel blocks,
   fun responses st h => turnCallStates_inv runT enableParallel responses st 0 h⟩

/-- Witness for the amended C8 theorem: one well-formed `read` call and a
starting state satisfying the invariant. -/
theorem turnLoop_claimC8_amended_witness :
    InvB c8Start = true
      ∧ resultsMatchB [c8BlockA] (toolResultsOf (fun _ _ => "ok") true [c8BlockA]) = true
      ∧ (∀ s ∈ turnCallStates (fun _ _ => "ok") true [[c8BlockA]] c8Start 0,
          InvB s = true) :=
  ⟨by decide,
   (turnLoop_claimC8_amended (fun _ _ => "ok") true).1 [c8BlockA],
   (turnLoop_claimC8_amended (fun _ _ => "ok") true).2 [[c8BlockA]] c8Start (by decide)⟩

end Ideacode
